import Mathlib

/-!
# Ocean-terminology extraction system: formal verification

A shallow embedding, in Lean 4, of the core text-processing functions of the
ocean disaster-prevention terminology system (Python sources `src/utils.py`,
`src/rules.py`, `scripts/extract_terms.py`, `scripts/associate_terms.py`,
`scripts/validate_output.py`), together with theorems settling the
specification's testable properties.

Modelling conventions:

* Python `str` values are sequences of Unicode code points and are modelled
  as `List Char`.
* The additive confidence heuristics sum Python floats (IEEE-754
  binary64).  The definition-confidence scorer adds at most one weight
  per rule (0.3/0.2/0.2/0.3, at most four additions in a fixed order):
  over its 16 accumulation paths each partial sum is a distinct double
  and the order and gate comparisons (0.5, 0.8) agree with exact decimal
  arithmetic, so it is modelled exactly in integer tenths (a `ℕ` value
  `t` stands for `t/10`; the gate 0.8 becomes `8`).
* The relationship scorers are NOT decimal-exact: e.g. the doubles
  `0.3+0.3 = 0.5999999999999999778…` and `0.4+0.2 = 0.6000000000000001110…`
  differ although both are 0.6 in decimal, and that difference can decide
  which relationship wins.  Their scores are therefore modelled with
  exact binary64 semantics: a non-negative double is represented by its
  numerator at scale `2^-1074` (every finite double is an integer
  multiple of `2^-1074`), addition is the exact integer sum rounded to 53
  significant bits with ties to even (`roundDouble`), and `min`/`max`/
  comparisons are numerator comparisons.  Overflow to infinity (sums
  beyond `2^1024`, which would need context strings of length at least
  `2^1020`) is not modelled.
* Python's `re` classes `\w` and `\d` cover all Unicode word/decimal
  characters.  Every character this system manipulates is a CJK ideograph,
  an ASCII alphanumeric, an underscore or a punctuation mark, so the
  embedding restricts `\w` to CJK + ASCII word characters and `\d` to ASCII
  digits.  `\s` and `str.strip` use the standard Unicode whitespace list.
* The regular expressions of the source have a rigid shape (literal
  alternatives, single-character classes, greedy `+`/`*` over classes that
  exclude whitespace and sentence terminals).  Each one is embedded by a
  dedicated matcher whose backtracking behaviour is derived by hand from
  Python's leftmost-match, greedy-first semantics; the derivation is
  documented at each matcher.
-/

namespace OceanTerm

set_option maxRecDepth 100000

/-- Unicode whitespace: the characters matched by Python's `\s` in `str`
patterns and stripped by `str.strip()`. -/
def pySpace (c : Char) : Bool :=
  c.toNat = 0x09 || c.toNat = 0x0a || c.toNat = 0x0b || c.toNat = 0x0c ||
  c.toNat = 0x0d || c.toNat = 0x1c || c.toNat = 0x1d || c.toNat = 0x1e ||
  c.toNat = 0x1f || c.toNat = 0x20 || c.toNat = 0x85 || c.toNat = 0xa0 ||
  c.toNat = 0x1680 || (0x2000 ≤ c.toNat && c.toNat ≤ 0x200a) ||
  c.toNat = 0x2028 || c.toNat = 0x2029 || c.toNat = 0x202f ||
  c.toNat = 0x205f || c.toNat = 0x3000

/-- The three sentence-terminal punctuation marks `。！？` used throughout
the source (definition patterns, sentence splitting, `endswith` checks). -/
def isTerminal (c : Char) : Bool :=
  c = '。' || c = '！' || c = '？'

/-- ASCII decimal digit: Python's `\d` restricted as documented above. -/
def isDigit10 (c : Char) : Bool :=
  '0' ≤ c && c ≤ '9'

/-- The character class `[^，。！？：；\s]` appearing in every term-capture
and keyword pattern of `src/rules.py`. -/
def isCtxWord (c : Char) : Bool :=
  !(c = '，' || c = '。' || c = '！' || c = '？' || c = '：' || c = '；' || pySpace c)

/-- Python `str.strip()`: remove leading and trailing whitespace. -/
def pyStrip (s : List Char) : List Char :=
  ((s.dropWhile pySpace).reverse.dropWhile pySpace).reverse

/-- Python substring test: `pyContains hay needle` is `needle in hay`. -/
def pyContains (hay needle : List Char) : Bool :=
  match hay with
  | [] => needle.isEmpty
  | _ :: rest => needle.isPrefixOf hay || pyContains rest needle

/-- Helper for `collapseSpace`: the flag records whether the previous
character belonged to a whitespace run (already rendered as one space). -/
def collapseSpaceAux : Bool → List Char → List Char
  | _, [] => []
  | inRun, c :: rest =>
    if pySpace c then
      if inRun then collapseSpaceAux true rest
      else ' ' :: collapseSpaceAux true rest
    else c :: collapseSpaceAux false rest

/-- `re.sub(r'\s+', ' ', s)`: replace every maximal whitespace run by a
single ASCII space. -/
def collapseSpace (s : List Char) : List Char :=
  collapseSpaceAux false s

/-- CJK ideograph range `一-鿿` of the `clean_text` character class. -/
def isCJK (c : Char) : Bool :=
  0x4e00 ≤ c.toNat && c.toNat ≤ 0x9fff

/-- ASCII word characters (`\w` restricted as documented above). -/
def isAsciiWord (c : Char) : Bool :=
  ('a' ≤ c && c ≤ 'z') || ('A' ≤ c && c ≤ 'Z') || isDigit10 c || c = '_'

/-- The punctuation kept by `clean_text`'s filter
`[^一-鿿\w\s，。！？；：（）《》【】""'']` (the four quote characters
in the source are the ASCII `"` and `'`, each written twice). -/
def keptPunct : List Char :=
  ['，', '。', '！', '？', '；', '：', '（', '）', '《', '》', '【', '】', '"', '\'']

/-- A character surviving `clean_text`'s filtering step. -/
def cleanKeep (c : Char) : Bool :=
  isCJK c || isAsciiWord c || pySpace c || keptPunct.contains c

/-- `clean_text` from `src/utils.py`: collapse whitespace runs, remove
characters outside the allowed class, strip.  The two `str.replace` calls of
the source substitute `"` for `"` and `'` for `'` (identity substitutions;
the raw bytes of the file confirm all four literals are ASCII), so they are
identities and add nothing here. -/
def clean_text (s : List Char) : List Char :=
  if s = [] then []
  else pyStrip ((collapseSpace s).filter cleanKeep)

/-- Split a character list at every separator recognised by `p`, dropping
the separators; mirrors `re.split` with a single-character class.  The
result is always non-empty and keeps empty segments, as `re.split` does. -/
def splitOnPred (p : Char → Bool) : List Char → List (List Char)
  | [] => [[]]
  | c :: rest =>
    if p c then [] :: splitOnPred p rest
    else
      match splitOnPred p rest with
      | s :: ss => (c :: s) :: ss
      | [] => [[c]]

/-- Little-endian decimal digits of `n` (fuel-indexed; `n` itself is always
enough fuel since each step divides by 10). -/
def digitsLEAux : ℕ → ℕ → List ℕ
  | 0, _ => []
  | f + 1, n => if n = 0 then [] else (n % 10) :: digitsLEAux f (n / 10)

/-- Value of a little-endian digit list. -/
def undigitsLE : List ℕ → ℕ
  | [] => 0
  | d :: ds => d + 10 * undigitsLE ds

/-- The ASCII character of a decimal digit. -/
def digitChar10 (d : ℕ) : Char :=
  Char.ofNat (48 + d)

/-- Python `str(n)` for a natural number: decimal with no leading zeros. -/
def natToChars (n : ℕ) : List Char :=
  if n = 0 then ['0'] else ((digitsLEAux n n).map digitChar10).reverse

theorem undigitsLE_digitsLEAux : ∀ f n, n ≤ f → undigitsLE (digitsLEAux f n) = n := by
  intro f
  induction f with
  | zero =>
    intro n h
    interval_cases n
    simp [digitsLEAux, undigitsLE]
  | succ f ih =>
    intro n h
    by_cases hn : n = 0
    · simp [digitsLEAux, hn, undigitsLE]
    · have hdiv : n / 10 ≤ f := by
        have h1 : n / 10 < n := Nat.div_lt_self (Nat.pos_of_ne_zero hn) (by omega)
        omega
      simp only [digitsLEAux, hn, if_false, undigitsLE, ih (n / 10) hdiv]
      omega

theorem digitsLEAux_lt10 : ∀ f n d, d ∈ digitsLEAux f n → d < 10 := by
  intro f
  induction f with
  | zero => intro n d h; simp [digitsLEAux] at h
  | succ f ih =>
    intro n d h
    by_cases hn : n = 0
    · simp [digitsLEAux, hn] at h
    · simp only [digitsLEAux, hn, if_false, List.mem_cons] at h
      rcases h with h | h
      · omega
      · exact ih (n / 10) d h

theorem digitsLEAux_inj {a b : ℕ} (ha : a ≤ fa) (hb : b ≤ fb)
    (h : digitsLEAux fa a = digitsLEAux fb b) : a = b := by
  have := undigitsLE_digitsLEAux fa a ha
  have := undigitsLE_digitsLEAux fb b hb
  rw [h] at *
  omega

theorem digitChar10_toNat {d : ℕ} (h : d < 10) : (digitChar10 d).toNat = 48 + d := by
  interval_cases d <;> decide

theorem digitChar10_inj {a b : ℕ} (ha : a < 10) (hb : b < 10)
    (h : digitChar10 a = digitChar10 b) : a = b := by
  have h1 := digitChar10_toNat ha
  have h2 := digitChar10_toNat hb
  rw [h] at h1
  omega

theorem map_digitChar10_inj : ∀ l1 l2 : List ℕ, (∀ d ∈ l1, d < 10) → (∀ d ∈ l2, d < 10) →
    l1.map digitChar10 = l2.map digitChar10 → l1 = l2 := by
  intro l1
  induction l1 with
  | nil => intro l2 _ _ h; cases l2 <;> simp_all
  | cons a l1 ih =>
    intro l2 h1 h2 h
    cases l2 with
    | nil => simp at h
    | cons b l2 =>
      simp only [List.map_cons, List.cons.injEq] at h
      have hab : a = b :=
        digitChar10_inj (h1 a (by simp)) (h2 b (by simp)) h.1
      have := ih l2 (fun d hd => h1 d (by simp [hd])) (fun d hd => h2 d (by simp [hd])) h.2
      simp [hab, this]

theorem digitsLEAux_zero : ∀ f, digitsLEAux f 0 = [] := by
  intro f
  cases f <;> simp [digitsLEAux]

theorem digitsLEAux_last_ne_zero : ∀ f n, n ≠ 0 → n ≤ f →
    ∃ ds d, digitsLEAux f n = ds ++ [d] ∧ d ≠ 0 ∧ d < 10 := by
  intro f
  induction f with
  | zero => intro n h hle; omega
  | succ f ih =>
    intro n hn hle
    simp only [digitsLEAux, hn, if_false]
    by_cases hd : n / 10 = 0
    · refine ⟨[], n % 10, ?_, ?_, ?_⟩
      · rw [hd, digitsLEAux_zero]
        simp
      · have : n < 10 := by omega
        omega
      · omega
    · have hdle : n / 10 ≤ f := by
        have : n / 10 < n := Nat.div_lt_self (Nat.pos_of_ne_zero hn) (by omega)
        omega
      obtain ⟨ds, d, heq, hne, hlt⟩ := ih (n / 10) hd hdle
      exact ⟨n % 10 :: ds, d, by simp [heq], hne, hlt⟩

theorem natToChars_head_ne_zero {n : ℕ} (h : n ≠ 0) :
    ∃ c rest, natToChars n = c :: rest ∧ c ≠ '0' := by
  obtain ⟨ds, d, heq, hne, hlt⟩ := digitsLEAux_last_ne_zero n n h le_rfl
  refine ⟨digitChar10 d, (ds.map digitChar10).reverse, ?_, ?_⟩
  · simp [natToChars, h, heq]
  · intro hc
    have hd0 : digitChar10 d = digitChar10 0 := by rw [hc]; decide
    exact hne (digitChar10_inj hlt (by omega) hd0)

theorem natToChars_inj {a b : ℕ} (h : natToChars a = natToChars b) : a = b := by
  by_cases ha : a = 0 <;> by_cases hb : b = 0
  · omega
  · exfalso
    obtain ⟨c, rest, heq, hc⟩ := natToChars_head_ne_zero hb
    rw [ha, heq] at h
    have h0 : natToChars 0 = ['0'] := rfl
    rw [h0] at h
    injection h with h1 _
    exact hc h1.symm
  · exfalso
    obtain ⟨c, rest, heq, hc⟩ := natToChars_head_ne_zero ha
    rw [hb, heq] at h
    have h0 : natToChars 0 = ['0'] := rfl
    rw [h0] at h
    injection h with h1 _
    exact hc h1
  · have h' : (digitsLEAux a a).map digitChar10 = (digitsLEAux b b).map digitChar10 := by
      have hx := congrArg List.reverse h
      simpa [natToChars, ha, hb] using hx
    have := map_digitChar10_inj _ _
      (fun d hd => digitsLEAux_lt10 a a d hd)
      (fun d hd => digitsLEAux_lt10 b b d hd) h'
    exact digitsLEAux_inj le_rfl le_rfl this

/-- Python `f"{i:02d}"` prefixed by a tag letter: the ordinal-key format
`W01, W02, …` / `R01, R02, …` of `extract_terms.py` / `associate_terms.py`
(decimal, zero-padded to a minimum width of two digits). -/
def padKey (keyHead : Char) (i : ℕ) : List Char :=
  if i < 10 then keyHead :: '0' :: natToChars i
  else keyHead :: natToChars i

/-- Task-1 ordinal key `f"W{i:02d}"`. -/
def wKey (i : ℕ) : List Char := padKey 'W' i

/-- Task-2 ordinal key `f"R{i:02d}"`. -/
def rKey (i : ℕ) : List Char := padKey 'R' i

theorem natToChars_small (n : ℕ) (h : n < 10) : natToChars n = [digitChar10 n] := by
  interval_cases n <;> decide

theorem padKey_inj (keyHead : Char) : Function.Injective (padKey keyHead) := by
  intro a b h
  unfold padKey at h
  by_cases ha : a < 10 <;> by_cases hb : b < 10
  · rw [if_pos ha, if_pos hb] at h
    injection h with _ h
    injection h with _ h
    exact natToChars_inj h
  · exfalso
    rw [if_pos ha, if_neg hb] at h
    obtain ⟨c, rest, heq, hc⟩ := natToChars_head_ne_zero (n := b) (by omega)
    rw [heq] at h
    injection h with _ h
    injection h with h1 _
    exact hc h1.symm
  · exfalso
    rw [if_neg ha, if_pos hb] at h
    obtain ⟨c, rest, heq, hc⟩ := natToChars_head_ne_zero (n := a) (by omega)
    rw [heq] at h
    injection h with _ h
    injection h with h1 _
    exact hc h1
  · rw [if_neg ha, if_neg hb] at h
    injection h with _ h
    exact natToChars_inj h

theorem wKey_inj : Function.Injective wKey := fun _ _ h => padKey_inj 'W' h

theorem rKey_inj : Function.Injective rKey := fun _ _ h => padKey_inj 'R' h

/-!
## Page-number formatting (`format_page_number`, `src/utils.py`)

The three patterns tried in order are
`(?:第)?(\d+)(?:[-~](\d+))?(?:页)?`, `page\s*(\d+)(?:[-~](\d+))?` and
`p\.?\s*(\d+)(?:[-~](\d+))?` (the last two case-insensitive), each via
`re.search` (leftmost match).  Greediness is deterministic here: `\d+` is
maximal because the following constructs (`[-~]`, `页`, end) never consume a
digit, and the optional `(?:[-~](\d+))?` participates only when the hyphen
is immediately followed by a digit.
-/

/-- Head-is-a-digit test used by the greedy optional `第`. -/
def headDigit : List Char → Bool
  | d :: _ => isDigit10 d
  | [] => false

/-- The capture groups `(\d+)(?:[-~](\d+))?` taken greedily from the start
of `s` (the caller guarantees a digit is present where required). -/
def pageGroups (s : List Char) : List Char × Option (List Char) :=
  match s.drop ((s.takeWhile isDigit10).length) with
  | c :: t =>
    if (c = '-' ∨ c = '~') ∧ t.takeWhile isDigit10 ≠ [] then
      (s.takeWhile isDigit10, some (t.takeWhile isDigit10))
    else (s.takeWhile isDigit10, none)
  | [] => (s.takeWhile isDigit10, none)

/-- One anchored attempt of `(?:第)?(\d+)(?:[-~](\d+))?(?:页)?`.  The greedy
optional `第` is consumed exactly when a digit follows it; otherwise the
attempt succeeds only if the position itself holds a digit (`第` is not a
digit, so the two branches are exclusive). -/
def p1MatchAt (s : List Char) : Option (List Char × Option (List Char)) :=
  match s with
  | [] => none
  | c :: rest =>
    if c = '第' ∧ headDigit rest then some (pageGroups rest)
    else if isDigit10 c then some (pageGroups s)
    else none

/-- Case-insensitive literal match (IGNORECASE on an ASCII literal);
returns the rest of the input. -/
def matchCI : List Char → List Char → Option (List Char)
  | [], s => some s
  | _ :: _, [] => none
  | p :: ps, c :: cs => if c.toLower = p then matchCI ps cs else none

/-- One anchored attempt of `page\s*(\d+)(?:[-~](\d+))?` (IGNORECASE).
`\s*` is maximal because `\d` never matches whitespace. -/
def p2MatchAt (s : List Char) : Option (List Char × Option (List Char)) :=
  match matchCI ("page".data) s with
  | some r =>
    if ((r.dropWhile pySpace).takeWhile isDigit10) ≠ [] then
      some (pageGroups (r.dropWhile pySpace))
    else none
  | none => none

/-- Consume an optional leading dot (`\.?`, greedy).  Refusing a present
dot cannot help: neither `\s` nor `\d` matches `.`. -/
def optDot : List Char → List Char
  | '.' :: t => t
  | r => r

/-- One anchored attempt of `p\.?\s*(\d+)(?:[-~](\d+))?` (IGNORECASE). -/
def p3MatchAt (s : List Char) : Option (List Char × Option (List Char)) :=
  match s with
  | [] => none
  | c :: rest =>
    if c.toLower = 'p' then
      if (((optDot rest).dropWhile pySpace).takeWhile isDigit10) ≠ [] then
        some (pageGroups ((optDot rest).dropWhile pySpace))
      else none
    else none

/-- `re.search`: try the anchored attempt at each position from the left,
returning the first success. -/
def scanFor (att : List Char → Option (List Char × Option (List Char))) :
    List Char → Option (List Char × Option (List Char))
  | [] => att []
  | s@(_ :: rest) =>
    match att s with
    | some g => some g
    | none => scanFor att rest

/-- Rebuild the canonical page label `第N页` / `第N-M页` from the captures. -/
def renderPage : List Char × Option (List Char) → List Char
  | (d1, some d2) => '第' :: (d1 ++ '-' :: (d2 ++ ['页']))
  | (d1, none) => '第' :: (d1 ++ ['页'])

/-- `format_page_number` from `src/utils.py`: empty input stays empty; the
first matching pattern determines the canonical label; with no match the
input is returned unchanged.  A total function by construction. -/
def format_page_number (s : List Char) : List Char :=
  if s = [] then []
  else
    match scanFor p1MatchAt s with
    | some g => renderPage g
    | none =>
      match scanFor p2MatchAt s with
      | some g => renderPage g
      | none =>
        match scanFor p3MatchAt s with
        | some g => renderPage g
        | none => s

theorem mem_takeWhile_sat {p : Char → Bool} :
    ∀ l : List Char, ∀ c ∈ l.takeWhile p, p c = true := by
  intro l
  induction l with
  | nil => simp
  | cons a l ih =>
    intro c hc
    by_cases hp : p a
    · rw [List.takeWhile_cons_of_pos hp] at hc
      rcases List.mem_cons.1 hc with h | h
      · rwa [h]
      · exact ih c h
    · rw [List.takeWhile_cons_of_neg hp] at hc
      simp at hc

theorem takeWhile_ne_nil_mem {p : Char → Bool} {l : List Char}
    (h : l.takeWhile p ≠ []) : ∃ c ∈ l, p c = true := by
  cases l with
  | nil => simp [List.takeWhile] at h
  | cons a t =>
    by_cases hp : p a
    · exact ⟨a, by simp, hp⟩
    · rw [List.takeWhile_cons_of_neg hp] at h
      simp at h

theorem takeWhile_append_of_all {p : Char → Bool} :
    ∀ l1 l2 : List Char, (∀ c ∈ l1, p c = true) →
      (l1 ++ l2).takeWhile p = l1 ++ l2.takeWhile p := by
  intro l1
  induction l1 with
  | nil => simp
  | cons a l1 ih =>
    intro l2 h
    have ha : p a := h a (by simp)
    simp only [List.cons_append, List.takeWhile_cons_of_pos ha]
    rw [ih l2 (fun c hc => h c (by simp [hc]))]

theorem scanFor_some {att} {s : List Char} {g} (h : scanFor att s = some g) :
    ∃ t, t.IsSuffix s ∧ att t = some g := by
  induction s with
  | nil => exact ⟨[], List.suffix_rfl, h⟩
  | cons a rest ih =>
    unfold scanFor at h
    split at h
    · rename_i g' heq
      injection h with h
      subst h
      exact ⟨a :: rest, List.suffix_rfl, heq⟩
    · obtain ⟨t, hsuf, hsome⟩ := ih h
      exact ⟨t, hsuf.trans (List.suffix_cons a rest), hsome⟩

theorem scanFor_none_of {att} {s : List Char}
    (h : ∀ t : List Char, t.IsSuffix s → att t = none) : scanFor att s = none := by
  induction s with
  | nil => exact h [] List.suffix_rfl
  | cons a rest ih =>
    unfold scanFor
    rw [h (a :: rest) List.suffix_rfl]
    exact ih (fun t ht => h t (ht.trans (List.suffix_cons a rest)))

theorem pageGroups_facts {s : List Char} {d1 : List Char} {o : Option (List Char)}
    (h : pageGroups s = (d1, o)) :
    d1 = s.takeWhile isDigit10 ∧ (∀ c ∈ d1, isDigit10 c = true) ∧
    (∀ d2, o = some d2 → d2 ≠ [] ∧ ∀ c ∈ d2, isDigit10 c = true) := by
  unfold pageGroups at h
  split at h
  · split at h
    · rename_i c t hdr hc
      injection h with h1 h2
      refine ⟨h1.symm, ?_, ?_⟩
      · rw [← h1]; exact mem_takeWhile_sat s
      · intro d2 hd2
        rw [← h2] at hd2
        injection hd2 with hd2
        exact ⟨by rw [← hd2]; exact hc.2, by rw [← hd2]; exact mem_takeWhile_sat t⟩
    · injection h with h1 h2
      refine ⟨h1.symm, ?_, ?_⟩
      · rw [← h1]; exact mem_takeWhile_sat s
      · intro d2 hd2; rw [← h2] at hd2; simp at hd2
  · injection h with h1 h2
    refine ⟨h1.symm, ?_, ?_⟩
    · rw [← h1]; exact mem_takeWhile_sat s
    · intro d2 hd2; rw [← h2] at hd2; simp at hd2

theorem p1MatchAt_some_facts {s : List Char} {d1 : List Char} {o : Option (List Char)}
    (h : p1MatchAt s = some (d1, o)) :
    d1 ≠ [] ∧ (∀ c ∈ d1, isDigit10 c = true) ∧
    (∀ d2, o = some d2 → d2 ≠ [] ∧ ∀ c ∈ d2, isDigit10 c = true) := by
  cases s with
  | nil => exact absurd h (by simp [p1MatchAt])
  | cons c rest =>
    have h' : (if c = '第' ∧ headDigit rest then some (pageGroups rest)
        else if isDigit10 c then some (pageGroups (c :: rest))
        else none) = some (d1, o) := h
    clear h
    rename' h' => h
    by_cases h1 : c = '第' ∧ headDigit rest
    · rw [if_pos h1] at h
      injection h with h
      obtain ⟨he, hall, ho⟩ := pageGroups_facts h
      refine ⟨?_, hall, ho⟩
      cases rest with
      | nil => exact absurd h1.2 (by simp [headDigit])
      | cons d rest' =>
        have hd : isDigit10 d := by simpa [headDigit] using h1.2
        rw [he, List.takeWhile_cons_of_pos hd]
        simp
    · rw [if_neg h1] at h
      by_cases h2 : isDigit10 c
      · rw [if_pos h2] at h
        injection h with h
        obtain ⟨he, hall, ho⟩ := pageGroups_facts h
        refine ⟨?_, hall, ho⟩
        rw [he, List.takeWhile_cons_of_pos h2]
        simp
      · rw [if_neg h2] at h
        exact absurd h (by simp)

theorem pageGroups_nonrange {d1 : List Char} (hd : ∀ c ∈ d1, isDigit10 c = true) :
    pageGroups (d1 ++ ['页']) = (d1, none) := by
  have ht : (d1 ++ ['页']).takeWhile isDigit10 = d1 := by
    rw [takeWhile_append_of_all d1 ['页'] hd]
    simp [List.takeWhile, isDigit10]
  have hdrop : (d1 ++ ['页']).drop (((d1 ++ ['页']).takeWhile isDigit10).length) = ['页'] := by
    rw [ht]
    exact List.drop_left d1 ['页']
  unfold pageGroups
  rw [hdrop]
  split
  · rename_i c t heq
    injection heq with h1 h2
    subst h1
    subst h2
    rw [if_neg (by intro hcond; rcases hcond.1 with h | h <;> exact absurd h (by decide)), ht]
  · rw [ht]

theorem pageGroups_range {d1 d2 : List Char} (hd1 : ∀ c ∈ d1, isDigit10 c = true)
    (hd2 : ∀ c ∈ d2, isDigit10 c = true) (hne : d2 ≠ []) :
    pageGroups (d1 ++ '-' :: (d2 ++ ['页'])) = (d1, some d2) := by
  have ht : (d1 ++ '-' :: (d2 ++ ['页'])).takeWhile isDigit10 = d1 := by
    rw [takeWhile_append_of_all d1 _ hd1]
    simp [List.takeWhile, isDigit10]
  have ht2 : (d2 ++ ['页']).takeWhile isDigit10 = d2 := by
    rw [takeWhile_append_of_all d2 ['页'] hd2]
    simp [List.takeWhile, isDigit10]
  have hdrop : (d1 ++ '-' :: (d2 ++ ['页'])).drop
      (((d1 ++ '-' :: (d2 ++ ['页'])).takeWhile isDigit10).length) = '-' :: (d2 ++ ['页']) := by
    rw [ht]
    exact List.drop_left d1 ('-' :: (d2 ++ ['页']))
  unfold pageGroups
  rw [hdrop]
  split
  · rename_i c t heq
    injection heq with h1 h2
    subst h1
    subst h2
    rw [if_pos ⟨Or.inl rfl, by rw [ht2]; exact hne⟩, ht2, ht]
  · rename_i heq
    exact absurd heq (by simp)

theorem p1MatchAt_render {d1 : List Char} {o : Option (List Char)}
    (hne : d1 ≠ []) (hd : ∀ c ∈ d1, isDigit10 c = true)
    (ho : ∀ d2, o = some d2 → d2 ≠ [] ∧ ∀ c ∈ d2, isDigit10 c = true) :
    p1MatchAt (renderPage (d1, o)) = some (d1, o) := by
  obtain ⟨a, t, had⟩ : ∃ a t, d1 = a :: t := by
    cases d1 with
    | nil => exact absurd rfl hne
    | cons a t => exact ⟨a, t, rfl⟩
  have hda : isDigit10 a := hd a (by rw [had]; simp)
  cases o with
  | none =>
    have step : p1MatchAt ('第' :: (d1 ++ ['页'])) =
        (if ('第' : Char) = '第' ∧ headDigit (d1 ++ ['页']) then
          some (pageGroups (d1 ++ ['页']))
        else if isDigit10 '第' then some (pageGroups ('第' :: (d1 ++ ['页'])))
        else none) := rfl
    show p1MatchAt ('第' :: (d1 ++ ['页'])) = some (d1, none)
    rw [step, if_pos ⟨rfl, by rw [had]; simpa [headDigit] using hda⟩, pageGroups_nonrange hd]
  | some d2 =>
    obtain ⟨hne2, hd2⟩ := ho d2 rfl
    have step : p1MatchAt ('第' :: (d1 ++ '-' :: (d2 ++ ['页']))) =
        (if ('第' : Char) = '第' ∧ headDigit (d1 ++ '-' :: (d2 ++ ['页'])) then
          some (pageGroups (d1 ++ '-' :: (d2 ++ ['页'])))
        else if isDigit10 '第' then some (pageGroups ('第' :: (d1 ++ '-' :: (d2 ++ ['页']))))
        else none) := rfl
    show p1MatchAt ('第' :: (d1 ++ '-' :: (d2 ++ ['页']))) = some (d1, some d2)
    rw [step, if_pos ⟨rfl, by rw [had]; simpa [headDigit] using hda⟩,
      pageGroups_range hd hd2 hne2]

theorem p1_scan_none_no_digit {s : List Char} (h : scanFor p1MatchAt s = none) :
    ∀ c ∈ s, isDigit10 c = false := by
  induction s with
  | nil => simp
  | cons a rest ih =>
    unfold scanFor at h
    cases hatt : p1MatchAt (a :: rest) with
    | some g => rw [hatt] at h; exact absurd h (by simp)
    | none =>
      rw [hatt] at h
      intro c hc
      rcases List.mem_cons.1 hc with hca | hcr
      · subst hca
        by_contra hdig
        have hdig' : isDigit10 c = true := by
          cases hd : isDigit10 c
          · exact absurd hd hdig
          · rfl
        have hatt' : (if c = '第' ∧ headDigit rest then some (pageGroups rest)
            else if isDigit10 c then some (pageGroups (c :: rest))
            else none) = none := hatt
        by_cases h1 : c = '第' ∧ headDigit rest
        · rw [if_pos h1] at hatt'
          exact absurd hatt' (by simp)
        · rw [if_neg h1, if_pos hdig'] at hatt'
          exact absurd hatt' (by simp)
      · exact ih h c hcr

theorem matchCI_suffix : ∀ p s r : List Char, matchCI p s = some r → r.IsSuffix s := by
  intro p
  induction p with
  | nil =>
    intro s r h
    unfold matchCI at h
    injection h with h
    rw [h]
  | cons a p ih =>
    intro s r h
    cases s with
    | nil => simp [matchCI] at h
    | cons c cs =>
      unfold matchCI at h
      by_cases hc : c.toLower = a
      · rw [if_pos hc] at h
        exact (ih cs r h).trans (List.suffix_cons c cs)
      · rw [if_neg hc] at h
        simp at h

theorem p2MatchAt_none_of_no_digit {s : List Char}
    (h : ∀ c ∈ s, isDigit10 c = false) : p2MatchAt s = none := by
  unfold p2MatchAt
  split
  · rename_i r hm
    have hsub : r.IsSuffix s := matchCI_suffix _ s r hm
    have hr2 : (r.dropWhile pySpace).takeWhile isDigit10 = [] := by
      by_contra hne
      obtain ⟨c, hc, hdig⟩ := takeWhile_ne_nil_mem hne
      have : c ∈ s := hsub.subset ((List.dropWhile_suffix pySpace).subset hc)
      rw [h c this] at hdig
      exact Bool.false_ne_true hdig
    rw [if_neg (by rw [hr2]; exact fun hx => hx rfl)]
  · rfl

theorem optDot_subset : ∀ l : List Char, optDot l ⊆ l := by
  intro l
  unfold optDot
  split
  · intro x hx
    simp [hx]
  · exact fun x hx => hx

theorem p3MatchAt_none_of_no_digit {s : List Char}
    (h : ∀ c ∈ s, isDigit10 c = false) : p3MatchAt s = none := by
  cases s with
  | nil => rfl
  | cons c rest =>
    have step : p3MatchAt (c :: rest) =
        (if c.toLower = 'p' then
          if (((optDot rest).dropWhile pySpace).takeWhile isDigit10) ≠ [] then
            some (pageGroups ((optDot rest).dropWhile pySpace))
          else none
        else none) := rfl
    rw [step]
    by_cases hp : c.toLower = 'p'
    · rw [if_pos hp]
      have hr2 : (((optDot rest).dropWhile pySpace).takeWhile isDigit10) = [] := by
        by_contra hne
        obtain ⟨x, hx, hdig⟩ := takeWhile_ne_nil_mem hne
        have hx2 : x ∈ rest := optDot_subset rest ((List.dropWhile_suffix pySpace).subset hx)
        rw [h x (by simp [hx2])] at hdig
        exact Bool.false_ne_true hdig
      rw [if_neg (by rw [hr2]; exact fun hx => hx rfl)]
    · rw [if_neg hp]

/-- C7: `format_page_number` is a total function on strings and is
idempotent: formatting an already-formatted page label returns it
unchanged. -/
theorem format_page_number_idempotent (s : List Char) :
    format_page_number (format_page_number s) = format_page_number s := by
  by_cases hs : s = []
  · subst hs; rfl
  cases h1 : scanFor p1MatchAt s with
  | some g =>
    obtain ⟨d1, o⟩ := g
    have hfs : format_page_number s = renderPage (d1, o) := by
      unfold format_page_number
      rw [if_neg hs, h1]
    obtain ⟨t, _, hatt⟩ := scanFor_some h1
    obtain ⟨hne, hd, ho⟩ := p1MatchAt_some_facts hatt
    have hrne : renderPage (d1, o) ≠ [] := by cases o <;> simp [renderPage]
    have hkey : p1MatchAt (renderPage (d1, o)) = some (d1, o) :=
      p1MatchAt_render hne hd ho
    have hscan : scanFor p1MatchAt (renderPage (d1, o)) = some (d1, o) := by
      cases hr : renderPage (d1, o) with
      | nil => exact absurd hr hrne
      | cons a rest =>
        unfold scanFor
        rw [← hr, hkey]
    rw [hfs]
    unfold format_page_number
    rw [if_neg hrne, hscan]
  | none =>
    have hnd : ∀ c ∈ s, isDigit10 c = false := p1_scan_none_no_digit h1
    have h2 : scanFor p2MatchAt s = none :=
      scanFor_none_of (fun t ht => p2MatchAt_none_of_no_digit
        (fun c hc => hnd c (ht.subset hc)))
    have h3 : scanFor p3MatchAt s = none :=
      scanFor_none_of (fun t ht => p3MatchAt_none_of_no_digit
        (fun c hc => hnd c (ht.subset hc)))
    have hfs : format_page_number s = s := by
      unfold format_page_number
      rw [if_neg hs, h1, h2, h3]
    rw [hfs]
    exact hfs

/-!
## Document-name normalization (`standardize_document_name`, `src/utils.py`)

The source computes `Path(filename).stem` (POSIX `pathlib`: last
`/`-separated component, with empty and `.` components discarded, minus its
final `.suffix` when the last dot is neither the first nor the last
character of the component) and then replaces `_` by `-`.
-/

/-- `PurePosixPath(f).name`. -/
def pathName (f : List Char) : List Char :=
  ((splitOnPred (fun c => c = '/') f).filter
    (fun c => decide (c ≠ [] ∧ c ≠ ['.']))).getLastD []

/-- The final-suffix split of `pathlib`: drop the part of `nm` from its
last dot on, provided that dot is neither the first nor the last
character; otherwise keep `nm` whole. -/
def stemOfName (nm : List Char) : List Char :=
  match nm.reverse.drop ((nm.reverse.takeWhile (fun c => decide (c ≠ '.'))).length) with
  | '.' :: revPre =>
    if revPre ≠ [] ∧ nm.reverse.takeWhile (fun c => decide (c ≠ '.')) ≠ [] then
      revPre.reverse
    else nm
  | _ => nm

/-- `PurePosixPath(f).stem`. -/
def pathStem (f : List Char) : List Char :=
  stemOfName (pathName f)

/-- `standardize_document_name` from `src/utils.py`. -/
def standardize_document_name (f : List Char) : List Char :=
  if f = [] then []
  else (pathStem f).map (fun c => if c = '_' then '-' else c)

/-- The reserved characters named by the specification (also checked by
`OutputValidator._validate_document_source_format`). -/
def winForbidden : List Char := ['<', '>', ':', '"', '/', '\\', '|', '?', '*']

theorem splitOnPred_no_sep {p : Char → Bool} :
    ∀ l : List Char, (∀ c ∈ l, p c = false) → splitOnPred p l = [l] := by
  intro l
  induction l with
  | nil => simp [splitOnPred]
  | cons a rest ih =>
    intro h
    unfold splitOnPred
    rw [if_neg (by rw [h a (by simp)]; exact Bool.false_ne_true)]
    rw [ih (fun c hc => h c (by simp [hc]))]

/-- C8 (amended): for a well-formed filename `base.ext` — `base` non-empty
with no dot and no reserved character, `ext` non-empty with no dot and no
slash — normalization returns `base` with underscores replaced by hyphens,
which contains no reserved character and no dot (hence no trailing
extension). -/
theorem standardize_document_name_wellformed
    (base ext : List Char) (hb : base ≠ [])
    (hbase : ∀ c ∈ base, ¬ c ∈ winForbidden ∧ c ≠ '.')
    (hext : ext ≠ []) (hextc : ∀ c ∈ ext, c ≠ '.' ∧ c ≠ '/') :
    standardize_document_name (base ++ '.' :: ext)
        = base.map (fun c => if c = '_' then '-' else c) ∧
    (∀ c ∈ standardize_document_name (base ++ '.' :: ext), ¬ c ∈ winForbidden) ∧
    '.' ∉ standardize_document_name (base ++ '.' :: ext) := by
  have hnoslash : ∀ c ∈ base ++ '.' :: ext, (fun c => decide (c = '/')) c = false := by
    intro c hc
    rcases List.mem_append.1 hc with h | h
    · have := (hbase c h).1
      simp only [decide_eq_false_iff_not]
      intro heq
      exact this (by rw [heq]; simp [winForbidden])
    · rcases List.mem_cons.1 h with h | h
      · subst h; decide
      · simp only [decide_eq_false_iff_not]
        exact (hextc c h).2
  have hname : pathName (base ++ '.' :: ext) = base ++ '.' :: ext := by
    unfold pathName
    rw [splitOnPred_no_sep _ hnoslash]
    have h1 : base ++ '.' :: ext ≠ [] := by
      cases base <;> simp
    have h2 : base ++ '.' :: ext ≠ ['.'] := by
      cases hbb : base with
      | nil => exact absurd hbb hb
      | cons a t =>
        simp only [List.cons_append, ne_eq, List.cons.injEq, not_and]
        intro ha
        cases t <;> simp
    simp [List.filter, h1, h2, List.getLastD]
  have hstem : pathStem (base ++ '.' :: ext) = base := by
    unfold pathStem
    rw [hname]
    have hrev : (base ++ '.' :: ext).reverse = ext.reverse ++ '.' :: base.reverse := by
      simp
    have hsuf : ((base ++ '.' :: ext).reverse).takeWhile
        (fun c => decide (c ≠ '.')) = ext.reverse := by
      rw [hrev]
      rw [takeWhile_append_of_all ext.reverse _ (by
        intro c hc
        simp only [decide_eq_true_eq]
        exact (hextc c (List.mem_reverse.1 hc)).1)]
      simp [List.takeWhile]
    unfold stemOfName
    rw [hsuf, hrev, List.drop_left ext.reverse ('.' :: base.reverse)]
    split
    · rename_i revPre heq
      injection heq with h1 h2
      subst h2
      rw [if_pos ⟨by simpa using hb, by simpa using hext⟩]
      simp
    · rename_i hno
      exact absurd rfl (hno base.reverse)
  have hmain : standardize_document_name (base ++ '.' :: ext)
      = base.map (fun c => if c = '_' then '-' else c) := by
    unfold standardize_document_name
    rw [if_neg (by cases base <;> simp), hstem]
  refine ⟨hmain, ?_, ?_⟩
  · intro c hc
    rw [hmain] at hc
    obtain ⟨b, hbmem, hbc⟩ := List.mem_map.1 hc
    by_cases hu : b = '_'
    · rw [if_pos hu] at hbc
      rw [← hbc]
      decide
    · rw [if_neg hu] at hbc
      rw [← hbc]
      exact (hbase b hbmem).1
  · intro hc
    rw [hmain] at hc
    obtain ⟨b, hbmem, hbc⟩ := List.mem_map.1 hc
    by_cases hu : b = '_'
    · rw [if_pos hu] at hbc
      exact absurd hbc (by decide)
    · rw [if_neg hu] at hbc
      exact (hbase b hbmem).2 hbc

/-- C8 witness: the specification's own example filename satisfies the
well-formedness hypotheses and normalizes as documented. -/
theorem standardize_document_name_wellformed_witness :
    standardize_document_name ("GB_T_39419-2020-海啸等级-2020-11-19.pdf".data)
      = "GB-T-39419-2020-海啸等级-2020-11-19".data := by
  have e : "GB_T_39419-2020-海啸等级-2020-11-19.pdf".data
      = "GB_T_39419-2020-海啸等级-2020-11-19".data ++ '.' :: "pdf".data := by decide
  rw [e]
  rw [(standardize_document_name_wellformed
    ("GB_T_39419-2020-海啸等级-2020-11-19".data) ("pdf".data)
    (by decide) (by decide) (by decide) (by decide)).1]
  decide

/-- C8 counterexample: on the filename `a:b_c.pdf` the source keeps the
reserved character `:`, so the claimed guarantee that the result never
contains a character from `<>:"/\|?*` is false. -/
theorem standardize_document_name_forbidden_cex :
    standardize_document_name ("a:b_c.pdf".data) = "a:b-c".data ∧
    ¬ (∀ c ∈ standardize_document_name ("a:b_c.pdf".data), ¬ c ∈ winForbidden) := by
  constructor
  · decide
  · intro h
    exact h ':' (by decide) (by decide)

/-!
## Term-definition matching (`extract_term_definition`, `src/utils.py`)

Each pattern has the shape `TERM \s* LINK \s* ([^。！？]+[。！？])` with
`LINK` one of `[：:]`, `是指`, `定义为`, `为`, `即`.  `re.search` takes the
leftmost position at which the whole pattern matches.  At a fixed position
the backtracking is deterministic except inside the capture:

* the `\s*` before `LINK` is maximal, because no linker starts with a
  whitespace character;
* for the capture, let `w` be the leading-whitespace run length after
  `LINK` and `q` the index of the first sentence terminal there.
  Whitespace is never a terminal, so `q ≥ w` when `q` exists.  `\s*` first
  consumes all `w` characters; the group needs one non-terminal character
  before a terminal, so when `q = w` the engine gives one whitespace
  character back to the group (possible only when `w ≥ 1`).  The attempt
  therefore succeeds iff a terminal exists at index `q ≥ 1`, with the
  capture spanning indices `min w (q-1)` through `q` inclusive.
-/

/-- The capture `([^。！？]+[。！？])` with its preceding greedy `\s*`,
attempted at the start of `s3` (see the derivation above). -/
def defGroupCapture (s3 : List Char) : Option (List Char) :=
  if (s3.takeWhile (fun c => !(isTerminal c))).length < s3.length ∧
      1 ≤ (s3.takeWhile (fun c => !(isTerminal c))).length then
    some ((s3.take ((s3.takeWhile (fun c => !(isTerminal c))).length + 1)).drop
      (min ((s3.takeWhile pySpace).length)
        ((s3.takeWhile (fun c => !(isTerminal c))).length - 1)))
  else none

/-- One anchored attempt of `TERM\s*LINK\s*([^。！？]+[。！？])` at a fixed
position: the literal (escaped) term, maximal `\s*`, the first matching
linker alternative, then the capture. -/
def defAttempt (term : List Char) (alts : List (List Char)) (s : List Char) :
    Option (List Char) :=
  if term.isPrefixOf s then
    match alts.find? (fun a => a.isPrefixOf ((s.drop term.length).dropWhile pySpace)) with
    | some a => defGroupCapture (((s.drop term.length).dropWhile pySpace).drop a.length)
    | none => none
  else none

/-- `re.search` of the anchored definition pattern: the attempt at the
first position (scanning left to right) at which it succeeds. -/
def defSearch (term : List Char) (alts : List (List Char)) : List Char → Option (List Char)
  | [] => defAttempt term alts []
  | s@(_ :: rest) =>
    match defAttempt term alts s with
    | some cap => some cap
    | none => defSearch term alts rest

/-- The five definition-pattern linkers of `extract_term_definition`, in
source order: `[：:]` (a two-character class, hence two single-character
alternatives), `是指`, `定义为`, `为`, `即`. -/
def defLinkers : List (List (List Char)) :=
  [["：".data, ":".data], ["是指".data], ["定义为".data], ["为".data], ["即".data]]

/-- The pattern loop of `extract_term_definition`: for each pattern in
order, take its leftmost match, strip and clean the capture, and return it
as soon as the cleaned text has at least 10 characters; otherwise continue
with the next pattern. -/
def firstAcceptedDef (term text : List Char) : List (List (List Char)) → Option (List Char)
  | [] => none
  | alts :: rest =>
    match defSearch term alts text with
    | some cap =>
      if 10 ≤ (clean_text (pyStrip cap)).length then some (clean_text (pyStrip cap))
      else firstAcceptedDef term text rest
    | none => firstAcceptedDef term text rest

/-- `extract_term_definition` from `src/utils.py`. -/
def extract_term_definition (text term : List Char) : Option (List Char) :=
  if text = [] ∨ term = [] then none
  else firstAcceptedDef term text defLinkers

/-- The definition matcher as claim C6 words it: the same anchored
patterns, but with the plain `为` ("is")-style pattern tried LAST (after
`即`), the colon-style still first. -/
def extractTermDefinitionClaim (text term : List Char) : Option (List Char) :=
  if text = [] ∨ term = [] then none
  else firstAcceptedDef term text
    [["：".data, ":".data], ["是指".data], ["定义为".data], ["即".data], ["为".data]]

/-- One pattern step of the amended decision chain: accept the leftmost
capture when its cleaned length reaches 10, otherwise defer to the
fallback. -/
def tryPattern (term text : List Char) (alts : List (List Char))
    (fallback : Option (List Char)) : Option (List Char) :=
  match defSearch term alts text with
  | some cap =>
    if 10 ≤ (clean_text (pyStrip cap)).length then some (clean_text (pyStrip cap))
    else fallback
  | none => fallback

/-- The definition matcher as amended: the anchored patterns are tried in
the fixed source order colon-style, `是指`, `定义为`, `为`, `即` — so the
`即` ("i.e.")-style pattern, not the `为`-style one, is the final fallback;
each pattern contributes only its leftmost match, whose stripped and
cleaned capture is returned as soon as the cleaned length is at least 10;
`none` on empty text or term, or when every pattern fails the gate. -/
def extractTermDefinitionAmended (text term : List Char) : Option (List Char) :=
  if text = [] ∨ term = [] then none
  else
    tryPattern term text ["：".data, ":".data]
      (tryPattern term text ["是指".data]
        (tryPattern term text ["定义为".data]
          (tryPattern term text ["为".data]
            (tryPattern term text ["即".data] none))))

/-- C6 (amended): `extract_term_definition` coincides with the amended
priority-order description (colon first, `为` fourth, `即` last). -/
theorem extract_term_definition_order (text term : List Char) :
    extract_term_definition text term = extractTermDefinitionAmended text term := rfl

/-- C6 counterexample: a text defining `甲` once with `即` (in the first
sentence) and once with `为` (in the second).  The source tries the
`为`-pattern before the `即`-pattern and returns the second sentence's
definition; the claimed order (`为` last) would return the first
sentence's.  So the claimed priority order is not the source's. -/
theorem extract_term_definition_order_cex :
    extract_term_definition
        ("甲即海洋灾害风险评估规范标准。甲为海岸带侵蚀防护技术方法。".data) ("甲".data)
      = some ("海岸带侵蚀防护技术方法。".data) ∧
    extractTermDefinitionClaim
        ("甲即海洋灾害风险评估规范标准。甲为海岸带侵蚀防护技术方法。".data) ("甲".data)
      = some ("海洋灾害风险评估规范标准。".data) ∧
    ("海岸带侵蚀防护技术方法。".data : List Char) ≠ "海洋灾害风险评估规范标准。".data := by
  refine ⟨by decide, by decide, by decide⟩

/-- The six defining-link phrases checked by the definition-confidence
scorer. -/
def definitionKeywords : List (List Char) :=
  ["是指".data, "定义为".data, "为".data, "即".data, "指的是".data, "表示".data]

/-- `TermExtractor._calculate_definition_confidence` from
`scripts/extract_terms.py`: additive weights 0.3/0.2/0.2/0.3 in integer
tenths, capped at 1.0 (= 10 tenths).  `minLen`/`maxLen` are the configured
definition-length bounds (defaults 10 and 500). -/
def calculate_definition_confidence (minLen maxLen : ℕ) (defn term : List Char) : ℕ :=
  min ((if minLen ≤ defn.length ∧ defn.length ≤ maxLen then 3 else 0) +
       (if pyContains defn term then 2 else 0) +
       (if (match defn.getLast? with | some c => isTerminal c | none => false) then
          2 else 0) +
       (if definitionKeywords.any (fun k => pyContains defn k) then 3 else 0)) 10

/-- The default `similarity_threshold` 0.8, in tenths. -/
def defaultSimilarityThreshold : ℕ := 8

/-- C4 counterexample: on the specification's own example the matcher does
return the expected definition, but that captured definition contains
neither the term nor any defining link phrase (`是指` lies before the
capture), so its confidence is 0.3 + 0.2 = 0.5 — below the claimed 0.8. -/
theorem definition_confidence_example_cex :
    extract_term_definition
        ("海洋灾害是指由海洋自然环境异常或剧烈变化导致的灾害。".data) ("海洋灾害".data)
      = some ("由海洋自然环境异常或剧烈变化导致的灾害。".data) ∧
    ¬ (defaultSimilarityThreshold ≤ calculate_definition_confidence 10 500
        ("由海洋自然环境异常或剧烈变化导致的灾害。".data) ("海洋灾害".data)) := by
  refine ⟨by decide, by decide⟩

/-- C4 (amended): the matcher returns the documented definition and the
confidence scorer assigns it exactly 0.5 (+0.3 length in range, +0.2
terminal punctuation; no self-reference or link-phrase bonus), which is
below the default similarity gate 0.8. -/
theorem definition_confidence_example_amended :
    extract_term_definition
        ("海洋灾害是指由海洋自然环境异常或剧烈变化导致的灾害。".data) ("海洋灾害".data)
      = some ("由海洋自然环境异常或剧烈变化导致的灾害。".data) ∧
    calculate_definition_confidence 10 500
        ("由海洋自然环境异常或剧烈变化导致的灾害。".data) ("海洋灾害".data) = 5 := by
  refine ⟨by decide, by decide⟩

/-!
## Data model and the term extractor (`scripts/extract_terms.py`)
-/

/-- A parsed page (`{'page_number': …, 'text': …}` in `parse_pdfs.py`). -/
structure Page where
  page_number : ℕ
  text : List Char
deriving DecidableEq

/-- A parsed document (`{'file_name': …, 'pages': […]}`). -/
structure Document where
  file_name : List Char
  pages : List Page
deriving DecidableEq

/-- A task-1 output record.  The source keys the four fields with the
Chinese strings 术语名称 (term name), 术语定义 (term definition), 文档出处
(document source) and 文档页数 (page label); Lean identifiers cannot carry
those characters, so the fields are named in English, in the same order. -/
structure TermRecord where
  term_name : List Char
  term_definition : List Char
  doc_source : List Char
  page_label : List Char
deriving DecidableEq

/-- One page step of `TermExtractor._extract_single_term`: pages not
containing the term are skipped; otherwise the matcher runs and the
candidate replaces the best one exactly when its confidence strictly
exceeds the best confidence so far. -/
def extractSingleTermPage (minLen maxLen : ℕ) (term : List Char) (doc : Document)
    (acc : Option TermRecord × ℕ) (page : Page) : Option TermRecord × ℕ :=
  if pyContains page.text term then
    match extract_term_definition page.text term with
    | some defn =>
      if calculate_definition_confidence minLen maxLen defn term > acc.2 then
        (some { term_name := term, term_definition := defn,
                doc_source := standardize_document_name doc.file_name,
                page_label := format_page_number
                  ('第' :: (natToChars page.page_number ++ ['页'])) },
         calculate_definition_confidence minLen maxLen defn term)
      else acc
    | none => acc
  else acc

/-- The full best-candidate scan of `_extract_single_term` over every page
of every document (deterministic order: documents, then pages). -/
def extractSingleTermScan (minLen maxLen : ℕ) (term : List Char)
    (docs : List Document) : Option TermRecord × ℕ :=
  docs.foldl (fun acc doc =>
    doc.pages.foldl (extractSingleTermPage minLen maxLen term doc) acc) (none, 0)

/-- `TermExtractor._extract_single_term`: the scan followed by the
similarity gate (`threshold`, default 0.8 = 8 tenths).  Returns `none`
exactly when no candidate reached the gate. -/
def extract_single_term (threshold minLen maxLen : ℕ) (term : List Char)
    (docs : List Document) : Option TermRecord :=
  if (extractSingleTermScan minLen maxLen term docs).2 ≥ threshold then
    (extractSingleTermScan minLen maxLen term docs).1
  else none

/-- The enumeration loop of `TermExtractor.extract_terms`
(`for i, term in enumerate(target_terms, 1)`): the i-th requested term
receives key `W{i:02d}` and either its gated best record or the
empty-definition placeholder that the source inserts to keep the 1:1
structure. -/
def extractTermsGo (threshold minLen maxLen : ℕ) (docs : List Document) :
    ℕ → List (List Char) → List (List Char × TermRecord)
  | _, [] => []
  | i, term :: rest =>
    (wKey i,
      match extract_single_term threshold minLen maxLen term docs with
      | some r => r
      | none => { term_name := term, term_definition := [], doc_source := [], page_label := [] })
      :: extractTermsGo threshold minLen maxLen docs (i + 1) rest

/-- `TermExtractor.extract_terms`.  Python inserts into a dict under the
fresh key `W{i:02d}` at each iteration; the keys are pairwise distinct
(see `extract_terms_request_contract`), so the dict is faithfully an
ordered association list. -/
def extract_terms (threshold minLen maxLen : ℕ) (target_terms : List (List Char))
    (docs : List Document) : List (List Char × TermRecord) :=
  extractTermsGo threshold minLen maxLen docs 1 target_terms

theorem foldl_preserve {α β : Type} (P : β → Prop) (f : β → α → β)
    (hf : ∀ b a, P b → P (f b a)) : ∀ (l : List α) (b : β), P b → P (l.foldl f b) := by
  intro l
  induction l with
  | nil => intro b hb; exact hb
  | cons a l ih => intro b hb; exact ih (f b a) (hf b a hb)

theorem extractSingleTermPage_keeps {minLen maxLen : ℕ} {term : List Char}
    {doc : Document} (P : TermRecord → Prop)
    (hP : ∀ defn page,
      P { term_name := term, term_definition := defn,
          doc_source := standardize_document_name doc.file_name,
          page_label := format_page_number
                          ('第' :: (natToChars (Page.page_number page) ++ ['页'])) })
    (acc : Option TermRecord × ℕ) (page : Page)
    (h : ∀ r, acc.1 = some r → P r) :
    ∀ r, (extractSingleTermPage minLen maxLen term doc acc page).1 = some r → P r := by
  intro r hr
  unfold extractSingleTermPage at hr
  split at hr
  · split at hr
    · split at hr
      · simp only [Option.some.injEq] at hr
        rw [← hr]
        exact hP _ page
      · exact h r hr
    · exact h r hr
  · exact h r hr

theorem extract_single_term_shape {threshold minLen maxLen : ℕ} {term : List Char}
    {docs : List Document} {r : TermRecord}
    (h : extract_single_term threshold minLen maxLen term docs = some r) :
    r.term_name = term := by
  unfold extract_single_term at h
  split at h
  · have hinv : ∀ r', (extractSingleTermScan minLen maxLen term docs).1 = some r' →
        r'.term_name = term := by
      unfold extractSingleTermScan
      refine foldl_preserve (fun acc : Option TermRecord × ℕ =>
        ∀ r', acc.1 = some r' → r'.term_name = term) _ ?_ docs (none, 0) (by simp)
      intro acc doc hacc
      exact foldl_preserve (fun acc : Option TermRecord × ℕ =>
        ∀ r', acc.1 = some r' → r'.term_name = term)
        (extractSingleTermPage minLen maxLen term doc)
        (fun b page hb => extractSingleTermPage_keeps (fun rec => rec.term_name = term)
          (fun _ _ => rfl) b page hb) doc.pages acc hacc
    exact hinv r h
  · exact absurd h (by simp)

theorem extractTermsGo_keys (threshold minLen maxLen : ℕ) (docs : List Document) :
    ∀ (tt : List (List Char)) (i0 : ℕ),
      (extractTermsGo threshold minLen maxLen docs i0 tt).map Prod.fst
        = (List.range tt.length).map (fun i => wKey (i0 + i)) := by
  intro tt
  induction tt with
  | nil => intro i0; simp [extractTermsGo]
  | cons term rest ih =>
    intro i0
    simp only [extractTermsGo, List.map_cons, List.length_cons, List.range_succ_eq_map,
      List.map_map]
    refine congrArg₂ List.cons (by simp) ?_
    rw [ih (i0 + 1)]
    refine List.map_congr_left ?_
    intro i _
    simp only [Function.comp_apply]
    exact congrArg wKey (by omega)

theorem extractTermsGo_get (threshold minLen maxLen : ℕ) (docs : List Document) :
    ∀ (tt : List (List Char)) (i0 i : ℕ) (h : i < tt.length),
      (extractTermsGo threshold minLen maxLen docs i0 tt)[i]?
        = some (wKey (i0 + i),
            match extract_single_term threshold minLen maxLen (tt.get ⟨i, h⟩) docs with
            | some r => r
            | none => { term_name := tt.get ⟨i, h⟩, term_definition := [],
                        doc_source := [], page_label := [] }) := by
  intro tt
  induction tt with
  | nil => intro i0 i h; simp at h
  | cons term rest ih =>
    intro i0 i h
    cases i with
    | zero => simp [extractTermsGo]
    | succ j =>
      have hj : j < rest.length := by simpa using h
      have := ih (i0 + 1) j hj
      simp only [extractTermsGo, List.getElem?_cons_succ]
      rw [this]
      exact congrArg some (congrArg₂ Prod.mk (congrArg wKey (by omega)) rfl)

/-- C1: `extract_terms` emits exactly one record per requested term (also
for duplicate requests), keyed `W01, W02, …` zero-padded, in strict
request order, with pairwise-distinct keys; the i-th record carries the
i-th requested term's name, and when no candidate for it reached the
confidence gate the record is present with an empty definition string. -/
theorem extract_terms_request_contract (threshold minLen maxLen : ℕ)
    (target_terms : List (List Char)) (docs : List Document) :
    ((extract_terms threshold minLen maxLen target_terms docs).map Prod.fst
        = (List.range target_terms.length).map (fun i => wKey (i + 1))) ∧
    ((extract_terms threshold minLen maxLen target_terms docs).map Prod.fst).Nodup ∧
    (∀ i (h : i < target_terms.length), ∃ r,
      (extract_terms threshold minLen maxLen target_terms docs)[i]?
          = some (wKey (i + 1), r) ∧
      r.term_name = target_terms.get ⟨i, h⟩ ∧
      (extract_single_term threshold minLen maxLen (target_terms.get ⟨i, h⟩) docs = none →
        r.term_definition = [])) := by
  have hkeys : (extract_terms threshold minLen maxLen target_terms docs).map Prod.fst
      = (List.range target_terms.length).map (fun i => wKey (i + 1)) := by
    rw [extract_terms, extractTermsGo_keys]
    exact List.map_congr_left (fun i _ => congrArg wKey (by omega))
  refine ⟨hkeys, ?_, ?_⟩
  · rw [hkeys]
    exact (List.nodup_range _).map
      (fun a b hab => by have := wKey_inj hab; omega)
  · intro i h
    have hget := extractTermsGo_get threshold minLen maxLen docs target_terms 1 i h
    rw [show (1 : ℕ) + i = i + 1 by omega] at hget
    cases hs : extract_single_term threshold minLen maxLen (target_terms.get ⟨i, h⟩) docs with
    | some r =>
      rw [hs] at hget
      exact ⟨r, hget, extract_single_term_shape hs, fun hnone => absurd hnone (by simp)⟩
    | none =>
      rw [hs] at hget
      exact ⟨_, hget, rfl, fun _ => rfl⟩

/-- C1 witness: the same term requested twice over an empty corpus yields
two records, `W01` and `W02`, each carrying the term's name and an empty
definition. -/
theorem extract_terms_request_contract_witness :
    ∃ r, (extract_terms 8 10 500 ["海洋灾害".data, "海洋灾害".data] [])[1]?
        = some (wKey 2, r) ∧ r.term_name = "海洋灾害".data ∧ r.term_definition = [] := by
  obtain ⟨r, h1, h2, h3⟩ := (extract_terms_request_contract 8 10 500
    ["海洋灾害".data, "海洋灾害".data] []).2.2 1 (by decide)
  exact ⟨r, h1, h2, h3 (by decide)⟩

/-!
## Exact IEEE-754 binary64 arithmetic for the relationship scores

A non-negative finite double is an integer multiple of `2^-1074`; it is
represented here by that integer numerator.  Addition computes the exact
integer sum (both addends are multiples of `2^-1074`) and rounds it to 53
significant bits with ties to even — exactly IEEE round-to-nearest-even,
which is what CPython's float addition performs.  A value whose numerator
fits in 53 bits (only `0.0` arises here) is returned unchanged.
Comparisons, `min` and `max` on doubles of one sign are numerator
comparisons.  The constants below are the binary64 values of the literals
`0.1`–`0.4`, `0.5`, `0.7` and `1.0` (significands `0x1999999999999A` for
0.1/0.2/0.4, `0x13333333333333` for 0.3, `0x16666666666666` for 0.7).
-/

/-- Bit length of a natural number (fuel-indexed; `n` is always enough
fuel since each step halves). -/
def natBitsAux : ℕ → ℕ → ℕ
  | 0, _ => 0
  | f + 1, n => if n = 0 then 0 else natBitsAux f (n / 2) + 1

/-- Bit length of `n`. -/
def natBits (n : ℕ) : ℕ := natBitsAux n n

/-- Round a numerator (scale `2^-1074`) to 53 significant bits, ties to
even: IEEE round-to-nearest-even for non-negative normal results. -/
def roundDouble (n : ℕ) : ℕ :=
  if natBits n ≤ 53 then n
  else
    (if n % 2 ^ (natBits n - 53) > 2 ^ (natBits n - 53 - 1) then n / 2 ^ (natBits n - 53) + 1
     else if n % 2 ^ (natBits n - 53) < 2 ^ (natBits n - 53 - 1) then n / 2 ^ (natBits n - 53)
     else if n / 2 ^ (natBits n - 53) % 2 = 0 then n / 2 ^ (natBits n - 53)
     else n / 2 ^ (natBits n - 53) + 1) * 2 ^ (natBits n - 53)

/-- Binary64 addition of non-negative doubles given by numerators. -/
def fadd (a b : ℕ) : ℕ := roundDouble (a + b)

/-- `count` sequential `fadd`s of `x` (the `score += w` loop of the
pattern-bonus accumulation, one addition per matching pattern match). -/
def faddN (s x : ℕ) : ℕ → ℕ
  | 0 => s
  | count + 1 => faddN (fadd s x) x count

/-- Python's conditional accumulation `if cond: score += w` (one float
addition exactly when the condition holds). -/
def addIf (cond : Bool) (w s : ℕ) : ℕ :=
  if cond then fadd s w else s

/-- The double `0.1` (`0x1.999999999999Ap-4`). -/
def f01 : ℕ := 7205759403792794 * 2 ^ 1018

/-- The double `0.2` (`0x1.999999999999Ap-3`). -/
def f02 : ℕ := 7205759403792794 * 2 ^ 1019

/-- The double `0.3` (`0x1.3333333333333p-2`). -/
def f03 : ℕ := 5404319552844595 * 2 ^ 1020

/-- The double `0.4` (`0x1.999999999999Ap-2`). -/
def f04 : ℕ := 7205759403792794 * 2 ^ 1020

/-- The double `0.5` (exact). -/
def f05 : ℕ := 2 ^ 1073

/-- The double `0.7` (`0x1.6666666666666p-1`), the default
`min_confidence` association gate. -/
def f07 : ℕ := 6305039478318694 * 2 ^ 1021

/-- The double `1.0` (exact), the score cap. -/
def f1 : ℕ := 2 ^ 1074

/-!
## Relationship classification (`AssociationRules`, `src/rules.py`)

Keyword groups are plain substring tests on the context.  The five
association patterns have the shapes `A+\s*(?:KW…)\s*(A+)` (patterns 1–4)
and `A+\s*(?:与|和)\s*(A+)\s*(?:的)?关系` (pattern 5), with
`A = [^，。！？：；\s]`.  Backtracking is deterministic up to the split
positions of the `A+` groups:

* `term1` (`A+`) cannot cross a non-`A` character, so it is a non-empty
  prefix of the maximal `A`-run at the match position, tried longest
  first;
* every `\s*` is maximal, because what follows it (a keyword alternative,
  `与`/`和`, `的`/`关`, or an `A` character) never starts with whitespace;
* `term2` in patterns 1–4 is maximal (nothing follows it); in pattern 5
  it is a non-empty prefix of its maximal `A`-run, longest first, with
  the trailing `(?:的)?关系` trying to consume `的` first;
* keyword alternatives are tried in listed order; no alternative of a
  group is a prefix of another, so at most one can match at a position.

`re.finditer` yields leftmost non-overlapping matches, resuming after
each match's end.  Every match consumes at least one character, so the
fuel `length + 1` below is never exhausted.
-/

/-- Containment keywords (the `包含` group of the rule table). -/
def kwContain : List (List Char) :=
  ["包括".data, "包含".data, "涵盖".data, "由...组成".data]

/-- Classification keywords (the `分类` group). -/
def kwClassify : List (List Char) :=
  ["分为".data, "分类".data, "类别".data, "类型".data, "层次".data, "级别".data]

/-- Subordination keywords (the `从属` group). -/
def kwBelong : List (List Char) :=
  ["属于".data, "隶属于".data, "归入".data, "纳入".data]

/-- Causation keywords (the `导致` group). -/
def kwCause : List (List Char) :=
  ["导致".data, "引起".data, "造成".data, "产生".data, "引发".data]

/-- Reason keywords (the `因为` group). -/
def kwBecause : List (List Char) :=
  ["因为".data, "由于".data, "鉴于".data, "基于".data]

/-- Influence keywords (the `影响` group). -/
def kwInfluence : List (List Char) :=
  ["影响".data, "作用".data, "效应".data, "效果".data]

/-- Keyword alternatives of association patterns 1–4, in source order. -/
def assocPatternKws : List (List (List Char)) :=
  [["导致".data, "引起".data, "造成".data],
   ["包括".data, "包含".data],
   ["属于".data, "隶属于".data],
   ["分为".data, "分类为".data]]

/-- Tail `\s*(?:kw…)\s*(A+)` of patterns 1–4 after a chosen `term1`
split; returns `(term2, rest-after-match)`. -/
def kwTailMatch (kws : List (List Char)) (s : List Char) :
    Option (List Char × List Char) :=
  let t := s.dropWhile pySpace
  match kws.find? (fun a => a.isPrefixOf t) with
  | some a =>
    let u := (t.drop a.length).dropWhile pySpace
    let t2 := u.takeWhile isCtxWord
    if t2 ≠ [] then some (t2, u.drop t2.length) else none
  | none => none

/-- Longest-first `term1` split search for patterns 1–4 (`k + 1` is the
length currently tried). -/
def attemptKwGo (kws : List (List Char)) (s run : List Char) :
    ℕ → Option (List Char × List Char × List Char)
  | 0 => none
  | k + 1 =>
    match kwTailMatch kws (s.drop (k + 1)) with
    | some (t2, rest) => some (run.take (k + 1), t2, rest)
    | none => attemptKwGo kws s run k

/-- One anchored attempt of `A+\s*(?:kw…)\s*(A+)` at a fixed position. -/
def attemptKw (kws : List (List Char)) (s : List Char) :
    Option (List Char × List Char × List Char) :=
  attemptKwGo kws s (s.takeWhile isCtxWord) ((s.takeWhile isCtxWord).length)

/-- Tail `\s*(?:的)?关系` of pattern 5: greedy optional `的` first. -/
def p5TermTail (v : List Char) : Option (List Char) :=
  let w := v.dropWhile pySpace
  if ("的关系".data).isPrefixOf w then some (w.drop 3)
  else if ("关系".data).isPrefixOf w then some (w.drop 2)
  else none

/-- Longest-first `term2` split search for pattern 5. -/
def p5Term2Go (u run2 : List Char) : ℕ → Option (List Char × List Char)
  | 0 => none
  | k + 1 =>
    match p5TermTail (u.drop (k + 1)) with
    | some rest => some (run2.take (k + 1), rest)
    | none => p5Term2Go u run2 k

/-- After `(?:与|和)\s*`: the `term2` group of pattern 5 followed by
`(?:的)?关系`. -/
def p5AfterConn (u : List Char) : Option (List Char × List Char) :=
  p5Term2Go u (u.takeWhile isCtxWord) ((u.takeWhile isCtxWord).length)

/-- Tail of pattern 5 after a chosen `term1` split: `\s*(?:与|和)\s*`
then the `term2` machinery. -/
def p5TailMatch (s : List Char) : Option (List Char × List Char) :=
  match s.dropWhile pySpace with
  | c :: tr => if c = '与' ∨ c = '和' then p5AfterConn (tr.dropWhile pySpace) else none
  | [] => none

/-- Longest-first `term1` split search for pattern 5. -/
def attemptP5Go (s run : List Char) : ℕ → Option (List Char × List Char × List Char)
  | 0 => none
  | k + 1 =>
    match p5TailMatch (s.drop (k + 1)) with
    | some (t2, rest) => some (run.take (k + 1), t2, rest)
    | none => attemptP5Go s run k

/-- One anchored attempt of `A+\s*(?:与|和)\s*(A+)\s*(?:的)?关系`. -/
def attemptP5 (s : List Char) : Option (List Char × List Char × List Char) :=
  attemptP5Go s (s.takeWhile isCtxWord) ((s.takeWhile isCtxWord).length)

/-- `re.finditer`: scan left to right; on a match, continue after its end
(matches are non-empty, so the remaining input strictly shrinks and the
fuel is never exhausted). -/
def finditerGo (attempt : List Char → Option (List Char × List Char × List Char)) :
    ℕ → List Char → List (List Char × List Char)
  | 0, _ => []
  | _, [] => []
  | fuel + 1, s@(_ :: rest) =>
    match attempt s with
    | some (t1, t2, restAfter) => (t1, t2) :: finditerGo attempt fuel restAfter
    | none => finditerGo attempt fuel rest

/-- All matches of one pattern over `s`. -/
def finditerPat (attempt : List Char → Option (List Char × List Char × List Char))
    (s : List Char) : List (List Char × List Char) :=
  finditerGo attempt (s.length + 1) s

/-- The `(term1, term2)` group pairs of all five association patterns over
the context, in source pattern order. -/
def allPatternMatches (ctx : List Char) : List (List Char × List Char) :=
  ((assocPatternKws.map (fun kws => finditerPat (attemptKw kws) ctx)).flatten)
    ++ finditerPat attemptP5 ctx

/-- Number of pattern matches whose captured groups contain the two
requested terms as substrings, in either orientation; the pattern bonus
(+0.2 hierarchical / +0.1 causal) is added once per such match. -/
def pairBonusCount (t1 t2 ctx : List Char) : ℕ :=
  (allPatternMatches ctx).countP (fun m =>
    (pyContains m.1 t1 && pyContains m.2 t2) || (pyContains m.1 t2 && pyContains m.2 t1))

/-- Substring test of a keyword group against the context. -/
def anyKw (kws : List (List Char)) (ctx : List Char) : Bool :=
  kws.any (fun k => pyContains ctx k)

/-- `AssociationRules._check_hierarchical_relationship` (score: binary64
numerator): `score = 0.0`, then `+0.3` containment, `+0.3`
classification, `+0.2` subordination (float additions in this fixed
order), then `+0.2` once per matching surface pattern, then
`min(score, 1.0)`.  The description is overwritten group by group
(containment, then classification, then subordination), so the last hit
wins; the pattern loop never touches it.  The `组成`/`子类` groups of the
rule table are never consulted. -/
def check_hierarchical_relationship (t1 t2 ctx : List Char) : ℕ × List Char :=
  (min
    (faddN
      (addIf (anyKw kwBelong ctx) f02
        (addIf (anyKw kwClassify ctx) f03
          (addIf (anyKw kwContain ctx) f03 0)))
      f02 (pairBonusCount t1 t2 ctx)) f1,
   if anyKw kwBelong ctx then t2 ++ "属于".data ++ t1
   else if anyKw kwClassify ctx then t1 ++ "分为".data ++ t2
   else if anyKw kwContain ctx then t1 ++ "包含".data ++ t2
   else [])

/-- `AssociationRules._check_causal_relationship` (score: binary64
numerator): `score = 0.0`, then `+0.4` causation, `+0.3` reason, `+0.2`
influence (float additions in this fixed order), then `+0.1` once per
matching surface pattern, then `min(score, 1.0)`.  Description as above
(causation, then reason, then influence, last hit wins); the
`所以`/`关联` groups are never consulted. -/
def check_causal_relationship (t1 t2 ctx : List Char) : ℕ × List Char :=
  (min
    (faddN
      (addIf (anyKw kwInfluence ctx) f02
        (addIf (anyKw kwBecause ctx) f03
          (addIf (anyKw kwCause ctx) f04 0)))
      f01 (pairBonusCount t1 t2 ctx)) f1,
   if anyKw kwInfluence ctx then t1 ++ "影响".data ++ t2
   else if anyKw kwBecause ctx then "因为".data ++ t1 ++ "所以".data ++ t2
   else if anyKw kwCause ctx then t1 ++ "导致".data ++ t2
   else [])

/-- `AssociationRules.analyze_relationship` (confidence: binary64
numerator; the strict 0.5 decision floor is `> f05`). -/
def analyze_relationship (t1 t2 ctx : List Char) : List Char × ℕ × List Char :=
  if t1 = [] ∨ t2 = [] ∨ ctx = [] then ("未知关系".data, 0, [])
  else if (check_hierarchical_relationship t1 t2 ctx).1
        > (check_causal_relationship t1 t2 ctx).1 ∧
      (check_hierarchical_relationship t1 t2 ctx).1 > f05 then
    ("主从关系".data, (check_hierarchical_relationship t1 t2 ctx).1,
      (check_hierarchical_relationship t1 t2 ctx).2)
  else if (check_causal_relationship t1 t2 ctx).1
        > (check_hierarchical_relationship t1 t2 ctx).1 ∧
      (check_causal_relationship t1 t2 ctx).1 > f05 then
    ("因果关系".data, (check_causal_relationship t1 t2 ctx).1,
      (check_causal_relationship t1 t2 ctx).2)
  else ("未知关系".data,
    max (check_hierarchical_relationship t1 t2 ctx).1
      (check_causal_relationship t1 t2 ctx).1, [])

/-- C3: the decision rule of `analyze_relationship` on non-empty inputs —
the relationship with the strictly greater sub-score wins only when that
score also exceeds the 0.5 floor; in every other case, including ties,
the result is 未知关系 with confidence `max` of the two sub-scores and an
empty description.  The sub-scores are the binary64 values the source
compares: a "tie" is float equality, and decimally equal sums need not
tie (`decimal_tie_resolves_causal` below exhibits `0.4 + 0.2` beating
`0.3 + 0.3`). -/
theorem analyze_relationship_decision (t1 t2 ctx : List Char)
    (h1 : t1 ≠ []) (h2 : t2 ≠ []) (h3 : ctx ≠ []) :
    ((check_hierarchical_relationship t1 t2 ctx).1 > (check_causal_relationship t1 t2 ctx).1 ∧
        (check_hierarchical_relationship t1 t2 ctx).1 > f05 →
      analyze_relationship t1 t2 ctx
        = ("主从关系".data, (check_hierarchical_relationship t1 t2 ctx).1,
            (check_hierarchical_relationship t1 t2 ctx).2)) ∧
    ((check_causal_relationship t1 t2 ctx).1 > (check_hierarchical_relationship t1 t2 ctx).1 ∧
        (check_causal_relationship t1 t2 ctx).1 > f05 →
      analyze_relationship t1 t2 ctx
        = ("因果关系".data, (check_causal_relationship t1 t2 ctx).1,
            (check_causal_relationship t1 t2 ctx).2)) ∧
    (¬((check_hierarchical_relationship t1 t2 ctx).1 > (check_causal_relationship t1 t2 ctx).1 ∧
        (check_hierarchical_relationship t1 t2 ctx).1 > f05) →
      ¬((check_causal_relationship t1 t2 ctx).1 > (check_hierarchical_relationship t1 t2 ctx).1 ∧
        (check_causal_relationship t1 t2 ctx).1 > f05) →
      analyze_relationship t1 t2 ctx
        = ("未知关系".data,
            max (check_hierarchical_relationship t1 t2 ctx).1
              (check_causal_relationship t1 t2 ctx).1, [])) ∧
    ((check_hierarchical_relationship t1 t2 ctx).1 = (check_causal_relationship t1 t2 ctx).1 →
      analyze_relationship t1 t2 ctx
        = ("未知关系".data, (check_hierarchical_relationship t1 t2 ctx).1, [])) := by
  have hguard : ¬(t1 = [] ∨ t2 = [] ∨ ctx = []) := by
    intro hcon
    rcases hcon with h | h | h
    · exact h1 h
    · exact h2 h
    · exact h3 h
  refine ⟨?_, ?_, ?_, ?_⟩
  · intro hcond
    unfold analyze_relationship
    rw [if_neg hguard, if_pos hcond]
  · intro hcond
    unfold analyze_relationship
    rw [if_neg hguard, if_neg (by omega), if_pos hcond]
  · intro hcond1 hcond2
    unfold analyze_relationship
    rw [if_neg hguard, if_neg hcond1, if_neg hcond2]
  · intro htie
    unfold analyze_relationship
    rw [if_neg hguard, if_neg (by omega), if_neg (by omega)]
    rw [htie, max_self, ← htie]

/-- C3 witness: the decision rule applied at the storm-surge example
(hierarchical score 0.2, causal score 0.5: neither side clears the 0.5
floor, so the pair resolves to 未知关系). -/
theorem analyze_relationship_decision_witness :
    analyze_relationship ("风暴潮".data) ("海岸侵蚀".data) ("风暴潮会导致海岸侵蚀".data)
      = ("未知关系".data,
          max (check_hierarchical_relationship ("风暴潮".data) ("海岸侵蚀".data)
                ("风暴潮会导致海岸侵蚀".data)).1
            (check_causal_relationship ("风暴潮".data) ("海岸侵蚀".data)
                ("风暴潮会导致海岸侵蚀".data)).1, []) :=
  (analyze_relationship_decision ("风暴潮".data) ("海岸侵蚀".data)
      ("风暴潮会导致海岸侵蚀".data) (by decide) (by decide) (by decide)).2.2.1
    (by decide) (by decide)

/-- C5 (code bug): on the repository's own test input — context
`风暴潮会导致海岸侵蚀`, pair (风暴潮, 海岸侵蚀) — the causal score is 0.4
(keyword 导致) + 0.1 (one surface-pattern match) = 0.5 exactly, which
does not clear the strict `> 0.5` floor, so the code classifies the pair
未知关系 with confidence 0.5; `test_system.py` asserts 因果关系 for this
very input, and the specification documents the same expectation. -/
theorem storm_surge_example_unknown :
    analyze_relationship ("风暴潮".data) ("海岸侵蚀".data) ("风暴潮会导致海岸侵蚀".data)
      = ("未知关系".data, f05, []) ∧
    (analyze_relationship ("风暴潮".data) ("海岸侵蚀".data)
        ("风暴潮会导致海岸侵蚀".data)).1 ≠ "因果关系".data := by
  refine ⟨by decide, by decide⟩

/-- Binary64 faithfulness exhibit: on context `导致影响包括分类` (with
terms appearing in no pattern group, so no bonus) the causal score is
`0.4 + 0.2 = 0.6000000000000001` and the hierarchical score is
`0.3 + 0.3 = 0.5999999999999999…`, distinct doubles although both are
0.6 in decimal — so the source (and this embedding) classifies the pair
因果关系 with a non-empty description rather than tieing to 未知关系. -/
theorem decimal_tie_resolves_causal :
    analyze_relationship ("甲".data) ("乙".data) ("导致影响包括分类".data)
      = ("因果关系".data, fadd (fadd 0 f04) f02,
          "甲".data ++ "影响".data ++ "乙".data) ∧
    fadd (fadd 0 f03) f03 < fadd (fadd 0 f04) f02 := by
  refine ⟨by decide, by decide⟩

/-!
## Pairwise association analysis (`TermAssociator`, `scripts/associate_terms.py`)
-/

/-- One evidence entry of a task-2 record (source keys 文档出处 and
文档页数). -/
structure AssocEvidence where
  doc_source : List Char
  page_label : List Char
deriving DecidableEq

/-- A task-2 output record.  Source dict keys: 术语关联 (`term_pair`),
关联关系 (`relationship`), 关联描述 (`evidence`), 置信度 (`confidence`, a
binary64 numerator here) and 上下文 (`excerpt`). -/
structure AssocRecord where
  term_pair : List (List Char)
  relationship : List Char
  evidence : List AssocEvidence
  confidence : ℕ
  excerpt : List Char
deriving DecidableEq

/-- `AssociationRules.extract_association_context`: split the page text on
the three sentence terminals (`re.split`), and for every sentence
containing both terms take the window from two sentences before to two
after, joined without separators and stripped.  `sentences.index(...)` in
the source returns the index of the FIRST sentence equal to the current
one, which the `takeWhile` mirrors; Python's clamped slice
`[max(0,idx-2) : min(len,idx+3)]` is `drop`/`take` with truncating
subtraction. -/
def extract_association_context (text t1 t2 : List Char) : List (List Char) :=
  let sentences := splitOnPred isTerminal text
  (sentences.filter (fun s => pyContains s t1 && pyContains s t2)).map (fun s =>
    let idx := (sentences.takeWhile (fun x => decide (x ≠ s))).length
    pyStrip (((sentences.drop (idx - 2)).take (idx + 3 - (idx - 2))).flatten))

/-- One context-window step of
`TermAssociator._analyze_term_pair_association`: a classification
replaces the best candidate exactly when its confidence strictly exceeds
the best confidence so far AND reaches the association gate. -/
def analyzePairCtxStep (gate : ℕ) (t1 t2 : List Char) (doc : Document) (page : Page)
    (best : Option AssocRecord × ℕ) (ctx : List Char) : Option AssocRecord × ℕ :=
  if (analyze_relationship t1 t2 ctx).2.1 > best.2 ∧
      (analyze_relationship t1 t2 ctx).2.1 ≥ gate then
    (some { term_pair := [t1, t2],
            relationship := (analyze_relationship t1 t2 ctx).1,
            evidence := [{ doc_source := standardize_document_name doc.file_name,
                           page_label := format_page_number
                             ('第' :: (natToChars page.page_number ++ ['页'])) }],
            confidence := (analyze_relationship t1 t2 ctx).2.1,
            excerpt := ctx.take 500 },
     (analyze_relationship t1 t2 ctx).2.1)
  else best

/-- Page step: pages missing either term are skipped; otherwise every
context window of the page is classified. -/
def analyzePairPage (gate : ℕ) (t1 t2 : List Char) (doc : Document)
    (best : Option AssocRecord × ℕ) (page : Page) : Option AssocRecord × ℕ :=
  if pyContains page.text t1 && pyContains page.text t2 then
    (extract_association_context page.text t1 t2).foldl
      (analyzePairCtxStep gate t1 t2 doc page) best
  else best

/-- `TermAssociator._analyze_term_pair_association`: the single best
classification across all documents, pages and context windows; `none`
when no window reached the gate. -/
def analyze_term_pair_association (gate : ℕ) (t1 t2 : List Char)
    (docs : List Document) : Option AssocRecord :=
  (docs.foldl (fun best doc => doc.pages.foldl (analyzePairPage gate t1 t2 doc) best)
    (none, 0)).1

/-- `itertools.combinations(terms, 2)`: all unordered pairs, in iteration
order. -/
def combinations2 : List (List Char) → List (List Char × List Char)
  | [] => []
  | x :: xs => (xs.map (fun y => (x, y))) ++ combinations2 xs

/-- `TermAssociator.analyze_associations`: pairs are analyzed in
combination order; a pair is accepted when its record's relationship is
not 未知关系, and accepted pairs receive keys `R01, R02, …` contiguously
in acceptance order (the source's counter equals the number of previously
accepted pairs, i.e. `acc.length`). -/
def analyze_associations (gate : ℕ) (terms : List (List Char))
    (docs : List Document) : List (List Char × AssocRecord) :=
  (combinations2 terms).foldl (fun acc pr =>
    match analyze_term_pair_association gate pr.1 pr.2 docs with
    | some r =>
      if r.relationship ≠ "未知关系".data then acc ++ [(rKey (acc.length + 1), r)]
      else acc
    | none => acc) []

theorem analyze_relationship_label (t1 t2 ctx : List Char) :
    (analyze_relationship t1 t2 ctx).1 = "主从关系".data ∨
    (analyze_relationship t1 t2 ctx).1 = "因果关系".data ∨
    (analyze_relationship t1 t2 ctx).1 = "未知关系".data := by
  unfold analyze_relationship
  split
  · exact Or.inr (Or.inr rfl)
  split
  · exact Or.inl rfl
  split
  · exact Or.inr (Or.inl rfl)
  · exact Or.inr (Or.inr rfl)

/-- The invariant carried by every accepted association candidate. -/
def AssocProp (gate : ℕ) (t1 t2 : List Char) (r : AssocRecord) : Prop :=
  gate ≤ r.confidence ∧ r.evidence.length = 1 ∧ r.term_pair = [t1, t2] ∧
  (r.relationship = "主从关系".data ∨ r.relationship = "因果关系".data ∨
    r.relationship = "未知关系".data)

theorem analyzePairCtxStep_keeps {gate : ℕ} {t1 t2 : List Char} {doc : Document}
    {page : Page} {best : Option AssocRecord × ℕ} {ctx : List Char}
    (h : ∀ r, best.1 = some r → AssocProp gate t1 t2 r) :
    ∀ r, (analyzePairCtxStep gate t1 t2 doc page best ctx).1 = some r →
      AssocProp gate t1 t2 r := by
  intro r hr
  unfold analyzePairCtxStep at hr
  split at hr
  · rename_i hcond
    simp only [Option.some.injEq] at hr
    rw [← hr]
    exact ⟨hcond.2, rfl, rfl, analyze_relationship_label t1 t2 ctx⟩
  · exact h r hr

theorem analyze_term_pair_association_facts {gate : ℕ} {t1 t2 : List Char}
    {docs : List Document} {r : AssocRecord}
    (h : analyze_term_pair_association gate t1 t2 docs = some r) :
    AssocProp gate t1 t2 r := by
  unfold analyze_term_pair_association at h
  refine foldl_preserve (fun best : Option AssocRecord × ℕ =>
      ∀ r', best.1 = some r' → AssocProp gate t1 t2 r') _ ?_ docs (none, 0)
    (by simp) r h
  intro best doc hbest
  refine foldl_preserve (fun b : Option AssocRecord × ℕ =>
      ∀ r', b.1 = some r' → AssocProp gate t1 t2 r')
    (analyzePairPage gate t1 t2 doc) ?_ doc.pages best hbest
  intro b page hb
  unfold analyzePairPage
  split
  · exact foldl_preserve (fun b' : Option AssocRecord × ℕ =>
        ∀ r', b'.1 = some r' → AssocProp gate t1 t2 r')
      (analyzePairCtxStep gate t1 t2 doc page)
      (fun b' ctx hb' => analyzePairCtxStep_keeps hb')
      (extract_association_context page.text t1 t2) b hb
  · exact hb

/-- C10: every record produced by `_analyze_term_pair_association` carries
an evidence list (关联描述) of length exactly one — the single entry of
the best-confidence context window — however many pages or windows in the
corpus support the pair. -/
theorem pair_association_single_evidence (gate : ℕ) (t1 t2 : List Char)
    (docs : List Document) (r : AssocRecord)
    (h : analyze_term_pair_association gate t1 t2 docs = some r) :
    r.evidence.length = 1 :=
  (analyze_term_pair_association_facts h).2.1

/-- C2: every record emitted by `analyze_associations` has a relationship
that is 主从关系 or 因果关系 — never 未知关系 — and confidence at least
the association gate; the keys are `R01, R02, …` assigned contiguously in
pair-discovery order over the accepted pairs only, so a rejected pair
leaves no gap. -/
theorem analyze_associations_contract (gate : ℕ) (terms : List (List Char))
    (docs : List Document) :
    ((analyze_associations gate terms docs).map Prod.fst
        = (List.range (analyze_associations gate terms docs).length).map
            (fun i => rKey (i + 1))) ∧
    (∀ kv ∈ analyze_associations gate terms docs,
      kv.2.relationship ≠ "未知关系".data ∧
      (kv.2.relationship = "主从关系".data ∨ kv.2.relationship = "因果关系".data) ∧
      gate ≤ kv.2.confidence) := by
  unfold analyze_associations
  refine foldl_preserve (fun acc : List (List Char × AssocRecord) =>
      (acc.map Prod.fst = (List.range acc.length).map (fun i => rKey (i + 1))) ∧
      (∀ kv ∈ acc,
        kv.2.relationship ≠ "未知关系".data ∧
        (kv.2.relationship = "主从关系".data ∨ kv.2.relationship = "因果关系".data) ∧
        gate ≤ kv.2.confidence)) _ ?_ (combinations2 terms) [] (by simp)
  intro acc pr hacc
  split
  · rename_i r hp
    split
    · rename_i hrel
      obtain ⟨hconf, _, _, hlabel⟩ := analyze_term_pair_association_facts hp
      constructor
      · rw [List.map_append, hacc.1, List.length_append]
        simp only [List.length_singleton]
        rw [List.range_succ, List.map_append]
        rfl
      · intro kv hkv
        rcases List.mem_append.1 hkv with hmem | hmem
        · exact hacc.2 kv hmem
        · have hkv2 : kv = (rKey (acc.length + 1), r) := by simpa using hmem
          subst hkv2
          refine ⟨hrel, ?_, hconf⟩
          rcases hlabel with hl | hl | hl
          · exact Or.inl hl
          · exact Or.inr hl
          · exact absurd hl hrel
    · exact hacc
  · exact hacc

/-- The one-page witness corpus `甲导致乙，由于甲影响乙。`. -/
def witnessDocs : List Document :=
  [{ file_name := "标准文档.pdf".data,
     pages := [{ page_number := 3, text := "甲导致乙，由于甲影响乙。".data }] }]

/-- The record the witness corpus produces for the pair (甲, 乙): causal
score `((0.4 + 0.3) + 0.2) + 0.1 = 0.9999999999999999` (binary64) against
hierarchical 0.2, clearing the default 0.7 gate. -/
def witnessRecord : AssocRecord :=
  { term_pair := ["甲".data, "乙".data], relationship := "因果关系".data,
    evidence := [{ doc_source := "标准文档".data, page_label := "第3页".data }],
    confidence := min (fadd (fadd (fadd (fadd 0 f04) f03) f02) f01) f1,
    excerpt := "甲导致乙，由于甲影响乙".data }

/-- C10 witness: the witness corpus produces an accepted record, and its
evidence list has length one. -/
theorem pair_association_single_evidence_witness :
    analyze_term_pair_association f07 ("甲".data) ("乙".data) witnessDocs
      = some witnessRecord ∧ witnessRecord.evidence.length = 1 := by
  constructor
  · decide
  · exact pair_association_single_evidence f07 ("甲".data) ("乙".data) witnessDocs
      witnessRecord (by decide)

/-- C2 witness: on the witness corpus the single accepted pair receives
key `R01` and satisfies the contract. -/
theorem analyze_associations_contract_witness :
    (("R01".data, witnessRecord) ∈ analyze_associations f07 ["甲".data, "乙".data] witnessDocs) ∧
    witnessRecord.relationship ≠ "未知关系".data ∧
    (witnessRecord.relationship = "主从关系".data ∨
      witnessRecord.relationship = "因果关系".data) ∧
    f07 ≤ witnessRecord.confidence := by
  have hmem : ("R01".data, witnessRecord)
      ∈ analyze_associations f07 ["甲".data, "乙".data] witnessDocs := by decide
  exact ⟨hmem,
    (analyze_associations_contract f07 ["甲".data, "乙".data] witnessDocs).2 _ hmem⟩

/-!
## Output validation (`OutputValidator`, `scripts/validate_output.py`, and
`validate_output_format`, `src/utils.py`)
-/

/-- `OutputValidator._validate_page_format`: full match of `^第\d+页$` or
`^第\d+-\d+页$`. -/
def validate_page_format (s : List Char) : Bool :=
  match s with
  | '第' :: rest =>
    !(rest.takeWhile isDigit10).isEmpty &&
      ((rest.drop ((rest.takeWhile isDigit10).length) == ['页']) ||
        (match rest.drop ((rest.takeWhile isDigit10).length) with
         | '-' :: r2 =>
           !(r2.takeWhile isDigit10).isEmpty &&
             (r2.drop ((r2.takeWhile isDigit10).length) == ['页'])
         | _ => false))
  | _ => false

/-- `OutputValidator._validate_document_source_format`: must not end in
`.pdf` and must not contain a reserved character. -/
def validate_document_source_format (s : List Char) : Bool :=
  !((".pdf".data).isSuffixOf s) && !(s.any (fun c => winForbidden.contains c))

/-- `OutputValidator._validate_task1_fields`, modelled through the
emptiness of its error list — the only thing `validate_task1_output` uses
of it: a record passes iff the term name is non-blank, the definition is
non-blank and at least 10 characters long, the document source is
non-blank and well-formed, and the page label is non-blank and canonical.
(Python's `not x or not x.strip()` is `pyStrip x = []`: a string is falsy
iff empty.) -/
def validate_task1_fields (t : TermRecord) : Bool :=
  !(pyStrip t.term_name).isEmpty &&
  (!(pyStrip t.term_definition).isEmpty && decide (10 ≤ t.term_definition.length)) &&
  (!(pyStrip t.doc_source).isEmpty && validate_document_source_format t.doc_source) &&
  (!(pyStrip t.page_label).isEmpty && validate_page_format t.page_label)

/-- `OutputValidator.validate_task1_output`: keep exactly the records
whose key starts with `W` and whose fields produce no validation error
(the required dict fields are always present in the structured model). -/
def validate_task1_output (res : List (List Char × TermRecord)) :
    List (List Char × TermRecord) :=
  res.foldl (fun acc kv =>
    if kv.1.head? = some 'W' then
      if validate_task1_fields kv.2 then acc ++ [kv] else acc
    else acc) []

/-- `validate_output_format(data, "task1")` from `src/utils.py`: `True`
iff every key starts with `W` and every field of every record is truthy
(in particular, non-empty). -/
def validate_output_format_task1 (data : List (List Char × TermRecord)) : Bool :=
  data.all (fun kv =>
    (kv.1.head? == some 'W') &&
    !kv.2.term_name.isEmpty && !kv.2.term_definition.isEmpty &&
    !kv.2.doc_source.isEmpty && !kv.2.page_label.isEmpty)

/-- The empty-definition placeholder `extract_terms` emits for a term
that was not found. -/
def notFoundRecord : TermRecord :=
  { term_name := "海啸".data, term_definition := [], doc_source := [], page_label := [] }

/-- C9 counterexample: the validation step DROPS an empty-definition
record (the validated mapping comes back empty), and
`validate_output_format` rejects the mapping outright — the record is
treated as a violation, not retained as legal "not found" output. -/
theorem empty_definition_dropped_cex :
    validate_task1_output [("W01".data, notFoundRecord)] = [] ∧
    validate_output_format_task1 [("W01".data, notFoundRecord)] = false := by
  refine ⟨by decide, by decide⟩

/-- C9 (amended): an empty 术语定义 is legal output of the extraction
step (it signals "not found" while keeping the 1:1 key structure), but
the validation step treats it as a violation and drops the record: every
record surviving `validate_task1_output` has a non-blank definition at
least 10 characters long. -/
theorem validated_records_nonempty_definition (res : List (List Char × TermRecord)) :
    ∀ kv ∈ validate_task1_output res,
      pyStrip kv.2.term_definition ≠ [] ∧ 10 ≤ kv.2.term_definition.length := by
  unfold validate_task1_output
  refine foldl_preserve (fun acc : List (List Char × TermRecord) =>
      ∀ kv ∈ acc, pyStrip kv.2.term_definition ≠ [] ∧ 10 ≤ kv.2.term_definition.length)
    _ ?_ res [] (by simp)
  intro acc kv hacc
  split
  · split
    · rename_i hkey hfields
      intro kv' hkv'
      rcases List.mem_append.1 hkv' with hmem | hmem
      · exact hacc kv' hmem
      · have hkv2 : kv' = kv := by simpa using hmem
        subst hkv2
        unfold validate_task1_fields at hfields
        simp only [Bool.and_eq_true, Bool.not_eq_true', List.isEmpty_eq_false,
          decide_eq_true_eq] at hfields
        exact ⟨hfields.1.1.2.1, hfields.1.1.2.2⟩
    · exact hacc
  · exact hacc

/-- A fully populated record that passes validation. -/
def validRecord : TermRecord :=
  { term_name := "海啸".data, term_definition := "由海底地震引起的巨大波浪。".data,
    doc_source := "GB-T-39419".data, page_label := "第12页".data }

/-- C9 witness: a well-formed record is retained by the validator, and
its definition is non-blank and long enough. -/
theorem validated_records_nonempty_definition_witness :
    (("W01".data, validRecord) ∈ validate_task1_output [("W01".data, validRecord)]) ∧
    pyStrip validRecord.term_definition ≠ [] ∧
    10 ≤ validRecord.term_definition.length := by
  have hmem : ("W01".data, validRecord)
      ∈ validate_task1_output [("W01".data, validRecord)] := by decide
  exact ⟨hmem,
    validated_records_nonempty_definition [("W01".data, validRecord)] _ hmem⟩

end OceanTerm
